import Mathlib

/-!
Verification of the segmentation engine of `src/App.tsx` (function
`buildSegments`, lines 307-337), a sweep that partitions a text into
display segments according to typed, possibly overlapping issue spans.

Embedding conventions:
* JS strings are modelled as `List Char`; character indices are `Int`
  (JS numbers restricted to integers, the only values the claims use).
* `String.prototype.slice` is modelled by `jsSlice`, including the
  negative-index wrap-around and the clamping to `[0, length]`.
* JS object reference identity of issues is modelled by the position of
  the issue in the caller's input list (`issueIdx`): the source removes
  an issue from its stack with `stack.filter((x) => x !== m.issue)`,
  which compares references; distinct list entries are distinct objects.
* `Array.prototype.sort` is guaranteed stable by the ECMAScript standard;
  a stable sort by a total preorder is extensionally unique, so it is
  modelled by a stable insertion sort with the source's comparator
  `(a, b) => a.idx - b.idx || Number(b.open) - Number(a.open)`.
-/

/-- The `IssueType` union of `App.tsx`: `"spell" | "grammar" | "clarity" | "structure"`. -/
inductive IssueType where
  | spell
  | grammar
  | clarity
  | «structure»
deriving DecidableEq, Repr

/-- The `Issue` record of `App.tsx`: `{ type, start, end, tip? }`. -/
structure Issue where
  type : IssueType
  start : Int
  «end» : Int
  tip : Option String
deriving DecidableEq, Repr

/-- A boundary marker, as pushed by `buildSegments`:
`{ idx, issue, open }`.  `issueIdx` records which input-list entry the
`issue` reference points at (JS reference identity). -/
structure Marker where
  idx : Int
  issueIdx : Nat
  issue : Issue
  «open» : Bool
deriving DecidableEq, Repr

/-- An output segment of `buildSegments`: `{ text, type, tip }`, where
`type : "plain" | IssueType` is modelled as `Option IssueType`
(`none` = `"plain"`) and an absent `tip` is `none`. -/
structure Segment where
  text : List Char
  type : Option IssueType
  tip : Option String
deriving DecidableEq, Repr

/-- `String.prototype.slice(a, b)`: negative indices count from the end,
then both are clamped into `[0, length]`; empty when the start is not
before the end. -/
def jsSlice (s : List Char) (a b : Int) : List Char :=
  let L : Int := s.length
  let f : Int := if a < 0 then max (L + a) 0 else min a L
  let t : Int := if b < 0 then max (L + b) 0 else min b L
  (s.take t.toNat).drop f.toNat

/-- The marker-building loop of `buildSegments`
(`for (const it of issues) { markers.push({idx: it.start, …, open: true});
markers.push({idx: it.end, …, open: false}); }`), carrying the running
input position `i` as the identity of each issue. -/
def buildMarkersFrom (i : Nat) : List Issue → List Marker
  | [] => []
  | it :: rest =>
      ⟨it.start, i, it, true⟩ :: ⟨it.«end», i, it, false⟩ :: buildMarkersFrom (i + 1) rest

/-- All markers of an issue list, identities starting at `0`. -/
def buildMarkers (issues : List Issue) : List Marker :=
  buildMarkersFrom 0 issues

/-- The comparator `(a, b) => a.idx - b.idx || Number(b.open) - Number(a.open)`
as a boolean "less or equal": position ascending, and at equal positions
open markers before close markers. -/
def markerLE (a b : Marker) : Bool :=
  decide (a.idx < b.idx) || (decide (a.idx = b.idx) && (a.«open» || !b.«open»))

/-- Stable insertion: `m` goes in front of the first element it compares
less-or-equal to, hence after every earlier element with an equal key. -/
def insertMarker (m : Marker) : List Marker → List Marker
  | [] => [m]
  | x :: xs => if markerLE m x then m :: x :: xs else x :: insertMarker m xs

/-- Stable sort of the markers; extensionally the ECMAScript
`Array.prototype.sort` with the comparator above. -/
def sortMarkers : List Marker → List Marker
  | [] => []
  | x :: xs => insertMarker x (sortMarkers xs)

/-- `stack[stack.length - 1]`: the last element of the stack, if any. -/
def lastElem? {α : Type} : List α → Option α
  | [] => none
  | [x] => some x
  | _ :: x :: xs => lastElem? (x :: xs)

/-- `const type = active ? active.type : "plain"` for `active = stack[stack.length-1]`. -/
def activeType (stack : List (Nat × Issue)) : Option IssueType :=
  (lastElem? stack).map (fun p => p.2.type)

/-- `const tip = active?.tip` for `active = stack[stack.length-1]`. -/
def activeTip (stack : List (Nat × Issue)) : Option String :=
  (lastElem? stack).bind (fun p => p.2.tip)

/-- One marker applied to the stack:
`if (m.open) stack.push(m.issue); else stack = stack.filter((x) => x !== m.issue);`
with reference identity rendered as the input position. -/
def applyMarker (stack : List (Nat × Issue)) (m : Marker) : List (Nat × Issue) :=
  if m.«open» then stack ++ [(m.issueIdx, m.issue)]
  else stack.filter (fun x => decide (x.1 ≠ m.issueIdx))

/-- The sweep loop of `buildSegments`: over the sorted markers, emit
`text.slice(cursor, m.idx)` whenever `m.idx > cursor` (tagged from the
stack top before the marker is applied), then apply the marker; after
the loop, emit `text.slice(cursor)` when `cursor < text.length`. -/
def sweep (text : List Char) : List Marker → Int → List (Nat × Issue) → List Segment
  | [], cursor, stack =>
      if cursor < (text.length : Int) then
        [⟨jsSlice text cursor (text.length : Int), activeType stack, activeTip stack⟩]
      else []
  | m :: ms, cursor, stack =>
      if m.idx > cursor then
        ⟨jsSlice text cursor m.idx, activeType stack, activeTip stack⟩
          :: sweep text ms m.idx (applyMarker stack m)
      else
        sweep text ms cursor (applyMarker stack m)

/-- `buildSegments(text, issues)` of `App.tsx`. -/
def buildSegments (text : List Char) (issues : List Issue) : List Segment :=
  sweep text (sortMarkers (buildMarkers issues)) 0 []

/-! ### Slice arithmetic -/

/-- Chaining a clamped slice with the rest of the drop. -/
lemma take_drop_chain {α : Type} (s : List α) (ta tb : Nat) (h : ta ≤ tb) :
    (s.take tb).drop ta ++ s.drop tb = s.drop ta := by
  have h1 : (s.take tb).drop ta = (s.drop ta).take (tb - ta) := by
    have htb : tb = ta + (tb - ta) := by omega
    rw [htb, ← List.take_drop]
    congr 1
    omega
  have h2 : s.drop tb = (s.drop ta).drop (tb - ta) := by
    rw [List.drop_drop]
    congr 1
    omega
  rw [h1, h2, List.take_append_drop]

/-- A slice from `a` to an intermediate `b`, followed by the slice from `b`
to the end, is the slice from `a` to the end (for `0 ≤ a ≤ b`). -/
lemma jsSlice_append_right (s : List Char) {a b : Int} (ha : 0 ≤ a) (hab : a ≤ b) :
    jsSlice s a b ++ jsSlice s b (s.length : Int) = jsSlice s a (s.length : Int) := by
  have hb : 0 ≤ b := le_trans ha hab
  have hL : (0 : Int) ≤ (s.length : Int) := Int.ofNat_nonneg _
  simp only [jsSlice, if_neg (not_lt.mpr ha), if_neg (not_lt.mpr hb), if_neg (not_lt.mpr hL)]
  have hmin : min (s.length : Int) (s.length : Int) = (s.length : Int) := min_self _
  rw [hmin]
  have hlen : ((s.length : Int)).toNat = s.length := Int.toNat_natCast _
  rw [hlen, List.take_length]
  exact take_drop_chain s _ _ (by omega)

/-- The slice of the whole text is the text. -/
lemma jsSlice_zero_length (s : List Char) : jsSlice s 0 (s.length : Int) = s := by
  have hL : (0 : Int) ≤ (s.length : Int) := Int.ofNat_nonneg _
  simp only [jsSlice, if_neg (not_lt.mpr le_rfl), if_neg (not_lt.mpr hL)]
  have h0 : (min (0 : Int) (s.length : Int)).toNat = 0 := by omega
  have h1 : (min (s.length : Int) (s.length : Int)).toNat = s.length := by omega
  rw [h0, h1, List.take_length, List.drop_zero]

/-- A slice starting at or past the end of the text is empty. -/
lemma jsSlice_from_length (s : List Char) {a : Int} (h : (s.length : Int) ≤ a) :
    jsSlice s a (s.length : Int) = [] := by
  have ha : 0 ≤ a := le_trans (Int.ofNat_nonneg _) h
  have hL : (0 : Int) ≤ (s.length : Int) := Int.ofNat_nonneg _
  simp only [jsSlice, if_neg (not_lt.mpr ha), if_neg (not_lt.mpr hL)]
  have h0 : (min a (s.length : Int)).toNat = s.length := by omega
  have h1 : (min (s.length : Int) (s.length : Int)).toNat = s.length := by omega
  rw [h0, h1, List.take_length, List.drop_length]

/-- A slice with both endpoints in range and a strictly increasing span
is nonempty. -/
lemma jsSlice_ne_nil (s : List Char) {a b : Int} (ha : 0 ≤ a) (hab : a < b)
    (hb : b ≤ (s.length : Int)) : jsSlice s a b ≠ [] := by
  have hb0 : 0 ≤ b := le_trans ha (le_of_lt hab)
  simp only [jsSlice, if_neg (not_lt.mpr ha), if_neg (not_lt.mpr hb0)]
  intro hnil
  have := congrArg List.length hnil
  simp only [List.length_drop, List.length_take, List.length_nil] at this
  omega

/-! ### Reconstruction along the sweep -/

/-- Concatenating the texts emitted by the sweep from any state with a
nonnegative cursor yields the slice from the cursor to the end, whatever
the markers and the stack are. -/
lemma sweep_join (text : List Char) :
    ∀ (ms : List Marker) (cursor : Int) (stack : List (Nat × Issue)),
    0 ≤ cursor →
    ((sweep text ms cursor stack).map Segment.text).flatten
      = jsSlice text cursor (text.length : Int) := by
  intro ms
  induction ms with
  | nil =>
      intro cursor stack h
      by_cases hc : cursor < (text.length : Int)
      · simp [sweep, hc]
      · rw [sweep, if_neg hc]
        simp only [List.map_nil, List.flatten_nil]
        exact (jsSlice_from_length text (not_lt.mp hc)).symm
  | cons m ms ih =>
      intro cursor stack h
      by_cases hm : m.idx > cursor
      · rw [sweep, if_pos hm]
        simp only [List.map_cons, List.flatten_cons]
        rw [ih m.idx (applyMarker stack m) (le_trans h (le_of_lt hm))]
        exact jsSlice_append_right text h (le_of_lt hm)
      · rw [sweep, if_neg hm]
        exact ih cursor (applyMarker stack m) h

/-- C1. Reconstruction: for every text and every issue list, the
concatenation of the `text` fields of the segments returned by
`buildSegments`, in output order, is exactly the input text. -/
theorem buildSegments_reconstruction (text : List Char) (issues : List Issue) :
    ((buildSegments text issues).map Segment.text).flatten = text := by
  rw [buildSegments, sweep_join text _ 0 [] le_rfl, jsSlice_zero_length]

/-- C9. With no issues, `buildSegments` returns the whole text as one
plain segment, and the empty list on the empty text. -/
theorem buildSegments_empty_issues (text : List Char) :
    buildSegments text [] = if text = [] then [] else [⟨text, none, none⟩] := by
  by_cases h : text = []
  · subst h
    simp [buildSegments, buildMarkers, buildMarkersFrom, sortMarkers, sweep]
  · have hlen : (0 : Int) < (text.length : Int) := by
      have : 0 < text.length := List.length_pos.mpr h
      exact_mod_cast this
    simp [buildSegments, buildMarkers, buildMarkersFrom, sortMarkers, sweep, hlen,
      activeType, activeTip, lastElem?, jsSlice_zero_length, h]

/-! ### Concrete sweep scenarios -/

/-- C3. Opens are processed before closes at the same position: issue A
over `[0,5)` immediately followed by issue B over `[5,10)` yields exactly
the segment `[0,5)` tagged with A's kind and the segment `[5,10)` tagged
with B's kind (plus the plain remainder), with no spurious plain gap at
position 5. -/
theorem buildSegments_boundary_touching (text : List Char) (kA kB : IssueType)
    (tA tB : Option String) (_h : (10 : Int) ≤ (text.length : Int)) :
    buildSegments text [⟨kA, 0, 5, tA⟩, ⟨kB, 5, 10, tB⟩] =
      ⟨jsSlice text 0 5, some kA, tA⟩ :: ⟨jsSlice text 5 10, some kB, tB⟩ ::
        (if (10 : Int) < (text.length : Int) then
          [⟨jsSlice text 10 (text.length : Int), none, none⟩] else []) := by
  simp [buildSegments, buildMarkers, buildMarkersFrom, sortMarkers, insertMarker, markerLE,
    sweep, applyMarker, activeType, activeTip, lastElem?]

/-- Witness for C3 on the 12-character text `"abcdefghijkl"`. -/
theorem buildSegments_boundary_touching_witness :
    (10 : Int) ≤ (("abcdefghijkl".toList).length : Int) ∧
    buildSegments "abcdefghijkl".toList
        [⟨IssueType.grammar, 0, 5, none⟩, ⟨IssueType.clarity, 5, 10, none⟩] =
      ⟨jsSlice "abcdefghijkl".toList 0 5, some IssueType.grammar, none⟩ ::
      ⟨jsSlice "abcdefghijkl".toList 5 10, some IssueType.clarity, none⟩ ::
        (if (10 : Int) < (("abcdefghijkl".toList).length : Int) then
          [⟨jsSlice "abcdefghijkl".toList 10 (("abcdefghijkl".toList).length : Int),
            none, none⟩] else []) :=
  ⟨by decide, buildSegments_boundary_touching "abcdefghijkl".toList
    IssueType.grammar IssueType.clarity none none (by decide)⟩

/-- C2. Removal is by identity, not stack discipline: for crossing issues
A over `[0,10)` and B over `[5,15)` on a text of length at least 15,
closing A at position 10 while B is still open leaves the active set
intact and the segment `[10,15)` is tagged with B's kind. -/
theorem buildSegments_crossing_overlap (text : List Char) (kA kB : IssueType)
    (tA tB : Option String) (_h : (15 : Int) ≤ (text.length : Int)) :
    buildSegments text [⟨kA, 0, 10, tA⟩, ⟨kB, 5, 15, tB⟩] =
      ⟨jsSlice text 0 5, some kA, tA⟩ :: ⟨jsSlice text 5 10, some kB, tB⟩ ::
      ⟨jsSlice text 10 15, some kB, tB⟩ ::
        (if (15 : Int) < (text.length : Int) then
          [⟨jsSlice text 15 (text.length : Int), none, none⟩] else []) := by
  simp [buildSegments, buildMarkers, buildMarkersFrom, sortMarkers, insertMarker, markerLE,
    sweep, applyMarker, activeType, activeTip, lastElem?]

/-- Witness for C2 on the 20-character text `"abcdefghijklmnopqrst"`. -/
theorem buildSegments_crossing_overlap_witness :
    (15 : Int) ≤ (("abcdefghijklmnopqrst".toList).length : Int) ∧
    buildSegments "abcdefghijklmnopqrst".toList
        [⟨IssueType.grammar, 0, 10, some "A"⟩, ⟨IssueType.clarity, 5, 15, some "B"⟩] =
      ⟨jsSlice "abcdefghijklmnopqrst".toList 0 5, some IssueType.grammar, some "A"⟩ ::
      ⟨jsSlice "abcdefghijklmnopqrst".toList 5 10, some IssueType.clarity, some "B"⟩ ::
      ⟨jsSlice "abcdefghijklmnopqrst".toList 10 15, some IssueType.clarity, some "B"⟩ ::
        (if (15 : Int) < (("abcdefghijklmnopqrst".toList).length : Int) then
          [⟨jsSlice "abcdefghijklmnopqrst".toList 15 (("abcdefghijklmnopqrst".toList).length : Int),
            none, none⟩] else []) :=
  ⟨by decide, buildSegments_crossing_overlap "abcdefghijklmnopqrst".toList
    IssueType.grammar IssueType.clarity (some "A") (some "B") (by decide)⟩

/-- C4. Innermost/most-recent wins: issue A `[0,10)` of kind `grammar`
containing issue B `[3,6)` of kind `clarity` yields `[0,3)` grammar,
`[3,6)` clarity, `[6,10)` grammar, and the trailing remainder plain. -/
theorem buildSegments_nesting (text : List Char) (tA tB : Option String)
    (_h : (10 : Int) ≤ (text.length : Int)) :
    buildSegments text [⟨IssueType.grammar, 0, 10, tA⟩, ⟨IssueType.clarity, 3, 6, tB⟩] =
      ⟨jsSlice text 0 3, some IssueType.grammar, tA⟩ ::
      ⟨jsSlice text 3 6, some IssueType.clarity, tB⟩ ::
      ⟨jsSlice text 6 10, some IssueType.grammar, tA⟩ ::
        (if (10 : Int) < (text.length : Int) then
          [⟨jsSlice text 10 (text.length : Int), none, none⟩] else []) := by
  simp [buildSegments, buildMarkers, buildMarkersFrom, sortMarkers, insertMarker, markerLE,
    sweep, applyMarker, activeType, activeTip, lastElem?]

/-- Witness for C4 on the 12-character text `"abcdefghijkl"`. -/
theorem buildSegments_nesting_witness :
    (10 : Int) ≤ (("abcdefghijkl".toList).length : Int) ∧
    buildSegments "abcdefghijkl".toList
        [⟨IssueType.grammar, 0, 10, none⟩, ⟨IssueType.clarity, 3, 6, none⟩] =
      ⟨jsSlice "abcdefghijkl".toList 0 3, some IssueType.grammar, none⟩ ::
      ⟨jsSlice "abcdefghijkl".toList 3 6, some IssueType.clarity, none⟩ ::
      ⟨jsSlice "abcdefghijkl".toList 6 10, some IssueType.grammar, none⟩ ::
        (if (10 : Int) < (("abcdefghijkl".toList).length : Int) then
          [⟨jsSlice "abcdefghijkl".toList 10 (("abcdefghijkl".toList).length : Int),
            none, none⟩] else []) :=
  ⟨by decide, buildSegments_nesting "abcdefghijkl".toList none none (by decide)⟩

/-! ### No clamping: inverted ranges (C5) -/

/-- C5 counterexample. An issue with `end < start` is not treated as
zero-width at `start`: on `"0123456789"`, the inverted range `[5,3)` does
not produce the same output as the zero-width range `[5,5)`. -/
theorem buildSegments_no_clamping_counterexample :
    buildSegments "0123456789".toList [⟨IssueType.grammar, 5, 3, none⟩] ≠
      buildSegments "0123456789".toList [⟨IssueType.grammar, 5, 5, none⟩] := by
  decide

/-- C5 amended. `buildSegments` performs no validation and drops nothing:
an inverted range with `0 ≤ end < start < length` closes before it opens,
so its issue is pushed at `start` and never removed — the whole suffix
`[start, length)` is tagged with its kind (everything before it plain).
No error is raised: the function is total and the emitted texts are
slices of the input. -/
theorem buildSegments_inverted_range (text : List Char) (k : IssueType)
    (tip : Option String) {s e : Int} (he : 0 ≤ e) (hes : e < s)
    (hsL : s < (text.length : Int)) :
    buildSegments text [⟨k, s, e, tip⟩] =
      (if 0 < e then [⟨jsSlice text 0 e, none, none⟩] else []) ++
      [⟨jsSlice text e s, none, none⟩,
       ⟨jsSlice text s (text.length : Int), some k, tip⟩] := by
  have h1 : ¬ (s < e) := by omega
  have h2 : s ≠ e := by omega
  by_cases h0 : (0 : Int) < e
  · simp [buildSegments, buildMarkers, buildMarkersFrom, sortMarkers, insertMarker, markerLE,
      sweep, applyMarker, activeType, activeTip, lastElem?, h0, h1, h2, hes, hsL]
  · have he0 : e = 0 := by omega
    subst he0
    simp [buildSegments, buildMarkers, buildMarkersFrom, sortMarkers, insertMarker, markerLE,
      sweep, applyMarker, activeType, activeTip, lastElem?, h1, h2, hes, hsL]

/-- Witness for the amended C5 on `"0123456789"` with the inverted range `[5,3)`. -/
theorem buildSegments_inverted_range_witness :
    ((0 : Int) ≤ 3 ∧ (3 : Int) < 5 ∧ (5 : Int) < (("0123456789".toList).length : Int)) ∧
    buildSegments "0123456789".toList [⟨IssueType.grammar, 5, 3, none⟩] =
      (if (0 : Int) < 3 then [⟨jsSlice "0123456789".toList 0 3, none, none⟩] else []) ++
      [⟨jsSlice "0123456789".toList 3 5, none, none⟩,
       ⟨jsSlice "0123456789".toList 5 (("0123456789".toList).length : Int),
        some IssueType.grammar, none⟩] :=
  ⟨by decide, buildSegments_inverted_range "0123456789".toList IssueType.grammar none
    (by decide) (by decide) (by decide)⟩

/-! ### Zero-width issues (C6) -/

/-- C6 counterexample. A degenerate issue (`start == end`) does change the
output segment list: at position 2 of `"abcdef"` it splits the single
plain segment into two plain segments. -/
theorem buildSegments_zero_width_counterexample :
    buildSegments "abcdef".toList [⟨IssueType.spell, 2, 2, none⟩] ≠
      buildSegments "abcdef".toList [] := by
  decide

/-- C6 amended. A degenerate issue never governs any segment: alone on any
text, at any position `p`, every output segment is plain with no tip, and
the concatenation is still the whole text — but the segment list may gain
a boundary at `p`, so it need not equal the output with the issue removed. -/
theorem buildSegments_zero_width_plain (text : List Char) (k : IssueType)
    (tip : Option String) (p : Int) :
    (∀ s ∈ buildSegments text [⟨k, p, p, tip⟩], s.type = none ∧ s.tip = none) ∧
    ((buildSegments text [⟨k, p, p, tip⟩]).map Segment.text).flatten = text := by
  refine ⟨?_, by rw [buildSegments, sweep_join text _ 0 [] le_rfl, jsSlice_zero_length]⟩
  by_cases h0 : (0 : Int) < p
  · by_cases hL : p < (text.length : Int)
    · simp [buildSegments, buildMarkers, buildMarkersFrom, sortMarkers, insertMarker, markerLE,
        sweep, applyMarker, activeType, activeTip, lastElem?, h0, hL]
    · simp [buildSegments, buildMarkers, buildMarkersFrom, sortMarkers, insertMarker, markerLE,
        sweep, applyMarker, activeType, activeTip, lastElem?, h0, hL]
  · by_cases hL : (0 : Int) < (text.length : Int)
    · simp [buildSegments, buildMarkers, buildMarkersFrom, sortMarkers, insertMarker, markerLE,
        sweep, applyMarker, activeType, activeTip, lastElem?, h0, hL]
    · simp [buildSegments, buildMarkers, buildMarkersFrom, sortMarkers, insertMarker, markerLE,
        sweep, applyMarker, activeType, activeTip, lastElem?, h0, hL]

/-- Witness for the amended C6: the segment `"ab"` produced by the
zero-width issue at position 2 of `"abcdef"` is plain with no tip. -/
theorem buildSegments_zero_width_plain_witness :
    ((⟨['a', 'b'], none, none⟩ : Segment) ∈
      buildSegments "abcdef".toList [⟨IssueType.spell, 2, 2, none⟩]) ∧
    ((⟨['a', 'b'], none, none⟩ : Segment).type = none ∧
     (⟨['a', 'b'], none, none⟩ : Segment).tip = none) :=
  ⟨by decide, (buildSegments_zero_width_plain "abcdef".toList IssueType.spell none 2).1
    ⟨['a', 'b'], none, none⟩ (by decide)⟩

/-! ### Zero-length segments (C7) -/

/-- Membership in an insertion is membership in the inserted element or the list. -/
lemma mem_insertMarker (m : Marker) :
    ∀ (l : List Marker) (x : Marker), x ∈ insertMarker m l ↔ x = m ∨ x ∈ l := by
  intro l
  induction l with
  | nil => intro x; simp [insertMarker]
  | cons y ys ih =>
      intro x
      by_cases h : markerLE m y
      · simp [insertMarker, h]
      · simp [insertMarker, h, ih]
        tauto

/-- Sorting introduces no new markers. -/
lemma mem_sortMarkers : ∀ (l : List Marker) (x : Marker), x ∈ sortMarkers l → x ∈ l := by
  intro l
  induction l with
  | nil => intro x hx; exact absurd hx (by simp [sortMarkers])
  | cons y ys ih =>
      intro x hx
      rw [sortMarkers] at hx
      rcases (mem_insertMarker y _ x).mp hx with h | h
      · exact h ▸ List.mem_cons_self y ys
      · exact List.mem_cons_of_mem y (ih x h)

/-- Every marker position is the `start` or the `end` of one of the issues. -/
lemma idx_of_mem_buildMarkersFrom :
    ∀ (issues : List Issue) (i : Nat) (m : Marker), m ∈ buildMarkersFrom i issues →
      ∃ it ∈ issues, m.idx = it.start ∨ m.idx = it.«end» := by
  intro issues
  induction issues with
  | nil => intro i m hm; exact absurd hm (by simp [buildMarkersFrom])
  | cons it rest ih =>
      intro i m hm
      rw [buildMarkersFrom] at hm
      simp only [List.mem_cons] at hm
      rcases hm with rfl | rfl | hm
      · exact ⟨it, List.mem_cons_self it rest, Or.inl rfl⟩
      · exact ⟨it, List.mem_cons_self it rest, Or.inr rfl⟩
      · obtain ⟨it', hit', h⟩ := ih (i + 1) m hm
        exact ⟨it', List.mem_cons_of_mem it hit', h⟩

/-- If every remaining marker position is at most the text length and the
cursor is in `[0, length]`, the sweep emits no empty text. -/
lemma sweep_no_empty (text : List Char) :
    ∀ (ms : List Marker) (cursor : Int) (stack : List (Nat × Issue)),
    0 ≤ cursor → cursor ≤ (text.length : Int) →
    (∀ m ∈ ms, m.idx ≤ (text.length : Int)) →
    ∀ s ∈ sweep text ms cursor stack, s.text ≠ [] := by
  intro ms
  induction ms with
  | nil =>
      intro cursor stack h0 hL _ s hs
      rw [sweep] at hs
      by_cases hc : cursor < (text.length : Int)
      · rw [if_pos hc] at hs
        rcases List.mem_singleton.mp hs with rfl
        exact jsSlice_ne_nil text h0 hc le_rfl
      · rw [if_neg hc] at hs
        exact absurd hs (List.not_mem_nil s)
  | cons m ms ih =>
      intro cursor stack h0 hL hb s hs
      have hmL : m.idx ≤ (text.length : Int) := hb m (List.mem_cons_self m ms)
      have hb' : ∀ x ∈ ms, x.idx ≤ (text.length : Int) :=
        fun x hx => hb x (List.mem_cons_of_mem m hx)
      by_cases hm : m.idx > cursor
      · rw [sweep, if_pos hm] at hs
        rcases List.mem_cons.mp hs with rfl | hs'
        · exact jsSlice_ne_nil text h0 hm hmL
        · exact ih m.idx (applyMarker stack m) (le_trans h0 (le_of_lt hm)) hmL hb' s hs'
      · rw [sweep, if_neg hm] at hs
        exact ih cursor (applyMarker stack m) h0 hL hb' s hs

/-- C7 counterexample. With issue ends beyond the text length, a
zero-length segment is emitted: on `"ab"` with ranges `[0,3)` and `[0,4)`
the second emitted segment has empty text. -/
theorem buildSegments_zero_length_counterexample :
    ((buildSegments "ab".toList
        [⟨IssueType.spell, 0, 3, none⟩, ⟨IssueType.spell, 0, 4, none⟩]).map
      Segment.text).contains [] = true := by
  decide

/-- C7 amended. Provided every issue's `start` and `end` are at most the
text length, `buildSegments` never emits a zero-length segment. -/
theorem buildSegments_no_zero_length (text : List Char) (issues : List Issue)
    (h : ∀ it ∈ issues,
      it.start ≤ (text.length : Int) ∧ it.«end» ≤ (text.length : Int)) :
    ∀ s ∈ buildSegments text issues, s.text ≠ [] := by
  rw [buildSegments]
  refine sweep_no_empty text _ 0 [] le_rfl (Int.ofNat_nonneg _) ?_
  intro m hm
  obtain ⟨it, hit, hidx⟩ := idx_of_mem_buildMarkersFrom issues 0 m (mem_sortMarkers _ m hm)
  rcases hidx with h1 | h1 <;> rw [h1]
  · exact (h it hit).1
  · exact (h it hit).2

/-- Witness for the amended C7 on `"abc"` with the in-range issue `[0,2)`. -/
theorem buildSegments_no_zero_length_witness :
    (∀ it ∈ [(⟨IssueType.spell, 0, 2, none⟩ : Issue)],
      it.start ≤ (("abc".toList).length : Int) ∧
      it.«end» ≤ (("abc".toList).length : Int)) ∧
    (⟨['a', 'b'], some IssueType.spell, none⟩ : Segment).text ≠ [] :=
  ⟨by decide, buildSegments_no_zero_length "abc".toList [⟨IssueType.spell, 0, 2, none⟩]
    (by decide) ⟨['a', 'b'], some IssueType.spell, none⟩ (by decide)⟩

/-! ### Tips come from the governing issue (C10) -/

/-- The last element of a list, when present, is a member. -/
lemma lastElem?_mem {α : Type} : ∀ (l : List α) (x : α), lastElem? l = some x → x ∈ l := by
  intro l
  induction l with
  | nil => intro x h; exact absurd h (by simp [lastElem?])
  | cons y ys ih =>
      intro x h
      cases ys with
      | nil =>
          rw [lastElem?] at h
          rw [Option.some_inj] at h
          exact h ▸ List.mem_singleton_self x
      | cons z zs =>
          rw [lastElem?] at h
          exact List.mem_cons_of_mem y (ih x h)

/-- Every marker's issue reference is one of the input issues. -/
lemma issue_of_mem_buildMarkersFrom :
    ∀ (issues : List Issue) (i : Nat) (m : Marker), m ∈ buildMarkersFrom i issues →
      m.issue ∈ issues := by
  intro issues
  induction issues with
  | nil => intro i m hm; exact absurd hm (by simp [buildMarkersFrom])
  | cons it rest ih =>
      intro i m hm
      rw [buildMarkersFrom] at hm
      simp only [List.mem_cons] at hm
      rcases hm with rfl | rfl | hm
      · exact List.mem_cons_self it rest
      · exact List.mem_cons_self it rest
      · exact List.mem_cons_of_mem it (ih (i + 1) m hm)

/-- Applying a marker whose issue is drawn from `issues` keeps every stack
entry's issue drawn from `issues`. -/
lemma applyMarker_issues (issues : List Issue) (stack : List (Nat × Issue)) (m : Marker)
    (hs : ∀ p ∈ stack, p.2 ∈ issues) (hm : m.issue ∈ issues) :
    ∀ p ∈ applyMarker stack m, p.2 ∈ issues := by
  intro p hp
  rw [applyMarker] at hp
  by_cases ho : m.«open»
  · rw [if_pos ho] at hp
    rcases List.mem_append.mp hp with h | h
    · exact hs p h
    · rcases List.mem_singleton.mp h with rfl
      exact hm
  · rw [if_neg ho] at hp
    exact hs p (List.mem_of_mem_filter hp)

/-- Along the sweep, every emitted segment is either plain with no tip, or
carries the kind and the tip of one and the same input issue. -/
lemma sweep_type_tip (text : List Char) (issues : List Issue) :
    ∀ (ms : List Marker) (cursor : Int) (stack : List (Nat × Issue)),
    (∀ m ∈ ms, m.issue ∈ issues) → (∀ p ∈ stack, p.2 ∈ issues) →
    ∀ s ∈ sweep text ms cursor stack,
      (s.type = none → s.tip = none) ∧
      (∀ k, s.type = some k → ∃ it ∈ issues, it.type = k ∧ it.tip = s.tip) := by
  intro ms
  induction ms with
  | nil =>
      intro cursor stack _ hstack s hs
      rw [sweep] at hs
      by_cases hc : cursor < (text.length : Int)
      · rw [if_pos hc] at hs
        rcases List.mem_singleton.mp hs with rfl
        cases hl : lastElem? stack with
        | none => simp [activeType, activeTip, hl]
        | some p =>
            refine ⟨by simp [activeType, hl], ?_⟩
            intro k hk
            have hk' : p.2.type = k := by simpa [activeType, hl] using hk
            exact ⟨p.2, hstack p (lastElem?_mem stack p hl), hk',
              by simp [activeTip, hl]⟩
      · rw [if_neg hc] at hs
        exact absurd hs (List.not_mem_nil s)
  | cons m ms ih =>
      intro cursor stack hms hstack s hs
      have hm : m.issue ∈ issues := hms m (List.mem_cons_self m ms)
      have hms' : ∀ x ∈ ms, x.issue ∈ issues :=
        fun x hx => hms x (List.mem_cons_of_mem m hx)
      have hstack' := applyMarker_issues issues stack m hstack hm
      by_cases hgt : m.idx > cursor
      · rw [sweep, if_pos hgt] at hs
        rcases List.mem_cons.mp hs with rfl | hs'
        · cases hl : lastElem? stack with
          | none => simp [activeType, activeTip, hl]
          | some p =>
              refine ⟨by simp [activeType, hl], ?_⟩
              intro k hk
              have hk' : p.2.type = k := by simpa [activeType, hl] using hk
              exact ⟨p.2, hstack p (lastElem?_mem stack p hl), hk',
                by simp [activeTip, hl]⟩
        · exact ih m.idx (applyMarker stack m) hms' hstack' s hs'
      · rw [sweep, if_neg hgt] at hs
        exact ih cursor (applyMarker stack m) hms' hstack' s hs

/-- C10. Every segment carries the note of its governing issue: a plain
segment has no tip, and a segment tagged with kind `k` carries exactly
the tip of an input issue of kind `k` (the governing one). -/
theorem buildSegments_tip_of_governing (text : List Char) (issues : List Issue) :
    ∀ s ∈ buildSegments text issues,
      (s.type = none → s.tip = none) ∧
      (∀ k, s.type = some k → ∃ it ∈ issues, it.type = k ∧ it.tip = s.tip) := by
  rw [buildSegments]
  refine sweep_type_tip text issues _ 0 [] ?_ ?_
  · intro m hm
    exact issue_of_mem_buildMarkersFrom issues 0 m (mem_sortMarkers _ m hm)
  · intro p hp
    exact absurd hp (List.not_mem_nil p)

/-- Witness for C10: the tagged segment `"a"` of `"abc"` under the issue
`[0,1)` with tip `"x"` carries that issue's kind and tip. -/
theorem buildSegments_tip_of_governing_witness :
    ((⟨['a'], some IssueType.spell, some "x"⟩ : Segment) ∈
      buildSegments "abc".toList [⟨IssueType.spell, 0, 1, some "x"⟩]) ∧
    (((⟨['a'], some IssueType.spell, some "x"⟩ : Segment).type = none →
        (⟨['a'], some IssueType.spell, some "x"⟩ : Segment).tip = none) ∧
     (∀ k, (⟨['a'], some IssueType.spell, some "x"⟩ : Segment).type = some k →
        ∃ it ∈ [(⟨IssueType.spell, 0, 1, some "x"⟩ : Issue)], it.type = k ∧
          it.tip = (⟨['a'], some IssueType.spell, some "x"⟩ : Segment).tip)) :=
  ⟨by decide, buildSegments_tip_of_governing "abc".toList
    [⟨IssueType.spell, 0, 1, some "x"⟩] ⟨['a'], some IssueType.spell, some "x"⟩ (by decide)⟩

/-! ### Stability of the marker sort (C8) -/

/-- The position a marker was pushed at in the unsorted marker array:
issue `i` pushes its open marker at `2*i` and its close marker at `2*i+1`. -/
def mpos (m : Marker) : Nat :=
  2 * m.issueIdx + (if m.«open» then 0 else 1)

/-- The comparator key linearized: position first, and at equal positions
open (0) before close (1). -/
def ikey (m : Marker) : Int :=
  2 * m.idx + (if m.«open» then 0 else 1)

/-- The boolean comparator agrees with the linearized key. -/
lemma markerLE_iff (a b : Marker) : markerLE a b = true ↔ ikey a ≤ ikey b := by
  rw [markerLE]
  cases ha : a.«open» <;> cases hb : b.«open» <;>
    simp [ikey, ha, hb] <;> omega

/-- A stably sorted run: keys weakly increase, and equal keys keep their
original push order. -/
def stableLT (a b : Marker) : Prop :=
  ikey a < ikey b ∨ (ikey a = ikey b ∧ mpos a < mpos b)

/-- Inserting an element pushed before everything in a stably sorted list
keeps the list stably sorted. -/
lemma insertMarker_pairwise (x : Marker) :
    ∀ (l : List Marker), l.Pairwise stableLT → (∀ y ∈ l, mpos x < mpos y) →
    (insertMarker x l).Pairwise stableLT := by
  intro l
  induction l with
  | nil => intro _ _; simp [insertMarker]
  | cons y ys ih =>
      intro hp hpos
      obtain ⟨hy, hys⟩ := List.pairwise_cons.mp hp
      rw [insertMarker]
      by_cases h : markerLE x y
      · rw [if_pos h]
        have hxy : ikey x ≤ ikey y := (markerLE_iff x y).mp h
        refine List.Pairwise.cons ?_ hp
        intro z hz
        rcases List.mem_cons.mp hz with rfl | hz'
        · rcases lt_or_eq_of_le hxy with hlt | heq
          · exact Or.inl hlt
          · exact Or.inr ⟨heq, hpos z (List.mem_cons_self z ys)⟩
        · have hyz : ikey y ≤ ikey z := by
            rcases hy z hz' with h' | h'
            · exact le_of_lt h'
            · exact le_of_eq h'.1
          rcases lt_or_eq_of_le (le_trans hxy hyz) with hlt | heq
          · exact Or.inl hlt
          · exact Or.inr ⟨heq, hpos z (List.mem_cons_of_mem y hz')⟩
      · rw [if_neg h]
        have hyx : ikey y < ikey x := by
          have hn : ¬ ikey x ≤ ikey y := fun hc =>
            h ((markerLE_iff x y).mpr hc)
          omega
        refine List.Pairwise.cons ?_
          (ih hys (fun z hz => hpos z (List.mem_cons_of_mem y hz)))
        intro z hz
        rcases (mem_insertMarker x ys z).mp hz with rfl | hz'
        · exact Or.inl hyx
        · exact hy z hz'

/-- Sorting a list whose push positions strictly increase yields a stably
sorted list. -/
lemma sortMarkers_pairwise :
    ∀ (l : List Marker), l.Pairwise (fun a b => mpos a < mpos b) →
    (sortMarkers l).Pairwise stableLT := by
  intro l
  induction l with
  | nil => intro _; simp [sortMarkers]
  | cons x xs ih =>
      intro hp
      obtain ⟨hx, hxs⟩ := List.pairwise_cons.mp hp
      rw [sortMarkers]
      exact insertMarker_pairwise x (sortMarkers xs) (ih hxs)
        (fun y hy => hx y (mem_sortMarkers xs y hy))

/-- Markers generated from input position `i` onward have push position
at least `2*i`. -/
lemma mpos_lb_buildMarkersFrom :
    ∀ (issues : List Issue) (i : Nat) (m : Marker), m ∈ buildMarkersFrom i issues →
      2 * i ≤ mpos m := by
  intro issues
  induction issues with
  | nil => intro i m hm; exact absurd hm (by simp [buildMarkersFrom])
  | cons it rest ih =>
      intro i m hm
      rw [buildMarkersFrom] at hm
      simp only [List.mem_cons] at hm
      rcases hm with rfl | rfl | hm
      · simp [mpos]
      · simp [mpos]
      · have := ih (i + 1) m hm
        omega

/-- The generated marker list is strictly increasing in push position:
the markers appear exactly in the order the loop pushed them. -/
lemma buildMarkersFrom_pairwise :
    ∀ (issues : List Issue) (i : Nat),
      (buildMarkersFrom i issues).Pairwise (fun a b => mpos a < mpos b) := by
  intro issues
  induction issues with
  | nil => intro i; simp [buildMarkersFrom]
  | cons it rest ih =>
      intro i
      rw [buildMarkersFrom]
      refine List.Pairwise.cons ?_ (List.Pairwise.cons ?_ (ih (i + 1)))
      · intro m hm
        rcases List.mem_cons.mp hm with rfl | hm'
        · simp [mpos]
        · have h2 := mpos_lb_buildMarkersFrom rest (i + 1) m hm'
          simp [mpos] at h2 ⊢
          omega
      · intro m hm
        have h2 := mpos_lb_buildMarkersFrom rest (i + 1) m hm
        simp [mpos] at h2 ⊢
        omega

/-- C8. Determinism and tie order: among the sorted markers the sweep
processes, two markers at the same position with the same open/close
flag appear in the caller's input order (stable sort); and two runs of
`buildSegments` on identical inputs give identical outputs. -/
theorem buildSegments_stable_deterministic (issues : List Issue) (text : List Char) :
    (sortMarkers (buildMarkers issues)).Pairwise
      (fun a b => a.idx = b.idx → a.«open» = b.«open» → a.issueIdx < b.issueIdx) ∧
    buildSegments text issues = buildSegments text issues := by
  refine ⟨?_, rfl⟩
  have h := sortMarkers_pairwise (buildMarkers issues) (buildMarkersFrom_pairwise issues 0)
  refine h.imp ?_
  intro a b hab hidx hopen
  have hkey : ikey a = ikey b := by
    simp [ikey, hidx, hopen]
  rcases hab with h' | h'
  · exact absurd h' (not_lt.mpr (le_of_eq hkey.symm))
  · have hpos := h'.2
    rw [mpos, mpos, hopen] at hpos
    by_cases hob : b.«open» <;> simp [hob] at hpos <;> omega
